import Mathlib

/-!
# MongoDB session provider (`mongodb/sess_mongodb.go`)

A shallow embedding of the beego MongoDB session provider and its in-memory
session store, followed by theorems about them.

Modelling conventions.

* The MongoDB collection `session` is a list of records in natural (insertion)
  order.  Only documents written by this provider are considered, so every
  document has the three fields `session_key`, `session_data`, `session_expire`.
* The driver calls (`Find(..).Apply`, `One`, `Update`, `Remove`, `RemoveAll`,
  `Count`) are modelled on their success path, i.e. with a reachable server; the
  driver errors kept are `mgo.ErrNotFound`, which the driver reports by itself
  when nothing matches, and the server's refusal of an update document.
  Update operators have their documented per-operator meaning: `$set` assigns
  the listed fields, `$setOnInsert` assigns them only when the upsert inserts.
  When an upsert would insert and the update document names one field under
  both `$set` and `$setOnInsert`, the server refuses the document and nothing is
  written; `Apply` then returns that error.  On a match `$set` is applied, which
  is what the repository's test requires of `SessionRegenerate`.
* `time.Now().Unix()` is a parameter of the operation that reads the clock.
* `int64` arithmetic wraps: `add64`.
* A Go `interface{}` value is `Option α`: `none` is the nil interface.
* A Go panic (failed type assertion) is the error `Err.typeAssertion`; the
  collection returned next to it is the collection at the moment of the panic.
* The gob serializer of the framework (`session.EncodeGob`, `session.DecodeGob`)
  is a parameter.
-/

namespace MongoSession

/-! ## Data model -/

/-- A Go `[]byte`. -/
abbrev Blob := List UInt8

/-- One document of the collection `session`.  `session_data = none` is BSON
null (what `"session_data": nil` stores). -/
structure Record where
  session_key : String
  session_data : Option Blob
  session_expire : Int
deriving DecidableEq, Repr

/-- The collection `session`, in natural order. -/
abbrev Collection := List Record

/-- Reduction of an integer to the `int64` range (two's complement). -/
def wrap64 (x : Int) : Int := (x + 2 ^ 63) % 2 ^ 64 - 2 ^ 63

/-- Go `a + b` on `int64`. -/
def add64 (a b : Int) : Int := wrap64 (a + b)

/-- Errors and panics that the operations can end in. -/
inductive Err where
  /-- `mgo.ErrNotFound`. -/
  | notFound
  /-- The error returned by `session.DecodeGob`. -/
  | decodeGob
  /-- The runtime panic of `s["session_data"].([]uint8)` on a nil interface. -/
  | typeAssertion
  /-- The server's refusal of an update document that names one field under
  two operators. -/
  | writeConflict
deriving DecidableEq, Repr

/-! ## The driver -/

/-- The three query documents that the provider builds:
`bson.M{"session_key": sid}`, `bson.M{"session_expire": bson.M{"$lt": t}}`
and `nil`. -/
inductive Query where
  | keyEq (sid : String)
  | expireLt (t : Int)
  | all
deriving DecidableEq, Repr

/-- Whether a record satisfies a query document. -/
def Query.matches : Query → Record → Bool
  | .keyEq sid, r => r.session_key == sid
  | .expireLt t, r => decide (r.session_expire < t)
  | .all, _ => true

/-- The document an upsert starts from when nothing matches: the equality
fields of the query.  The other fields are absent in MongoDB; both upserts of
the provider assign all three fields on insert, so the placeholders below are
never observed. -/
def Query.seed : Query → Record
  | .keyEq sid => { session_key := sid, session_data := none, session_expire := 0 }
  | _ => { session_key := "", session_data := none, session_expire := 0 }

/-- The argument of an update operator: the fields it assigns.  For
`session_data`, `some none` assigns null. -/
structure Fields where
  session_key : Option String
  session_data : Option (Option Blob)
  session_expire : Option Int
deriving DecidableEq, Repr

/-- An operator document that assigns nothing (the operator is not used). -/
def Fields.empty : Fields :=
  { session_key := none, session_data := none, session_expire := none }

/-- Assign the listed fields of a record. -/
def Fields.assign (u : Fields) (r : Record) : Record :=
  { session_key := u.session_key.getD r.session_key,
    session_data := u.session_data.getD r.session_data,
    session_expire := u.session_expire.getD r.session_expire }

/-- Whether two operator documents name a common field. -/
def Fields.overlaps (u w : Fields) : Bool :=
  (u.session_key.isSome && w.session_key.isSome) ||
  (u.session_data.isSome && w.session_data.isSome) ||
  (u.session_expire.isSome && w.session_expire.isSome)

/-- The value of `mgo.Change` built by the provider: an update document with
`$set` and `$setOnInsert`, `Upsert: true`, and `ReturnNew` left false. -/
structure Change where
  set : Fields
  setOnInsert : Fields
deriving DecidableEq, Repr

/-- Replace the first record that satisfies `q` by its image under `f`. -/
def modifyFirst (q : Record → Bool) (f : Record → Record) : Collection → Collection
  | [] => []
  | r :: rs => if q r then f r :: rs else r :: modifyFirst q f rs

/-- Driver call `Find(q).Apply(change, &s)`: findAndModify with upsert.  The
first match gets `$set` and the document as it was before the update is
returned.  Without a match the upsert inserts: an update document that names a
field under both `$set` and `$setOnInsert` is refused and nothing is written;
otherwise one document is inserted (seed, then `$set`, then `$setOnInsert`) and
the result is left nil. -/
def mgoApply (c : Collection) (q : Query) (ch : Change) :
    Collection × Except Err (Option Record) :=
  match c.find? q.matches with
  | some r => (modifyFirst q.matches ch.set.assign c, .ok (some r))
  | none =>
    if ch.set.overlaps ch.setOnInsert then (c, .error .writeConflict)
    else (c ++ [ch.setOnInsert.assign (ch.set.assign q.seed)], .ok none)

/-- Driver call `Find(q).One(&s)`: the first match, `ErrNotFound` without one. -/
def mgoOne (c : Collection) (q : Query) : Except Err Record :=
  match c.find? q.matches with
  | some r => .ok r
  | none => .error .notFound

/-- Driver call `Update(q, bson.M{"$set": u})`: updates the first match, `ErrNotFound`
without one. -/
def mgoUpdate (c : Collection) (q : Query) (u : Fields) : Collection × Option Err :=
  if c.any q.matches then (modifyFirst q.matches u.assign c, none)
  else (c, some .notFound)

/-- Driver call `Remove(q)`: deletes the first match, `ErrNotFound` without one. -/
def mgoRemove (c : Collection) (q : Query) : Collection × Option Err :=
  if c.any q.matches then (c.eraseP q.matches, none)
  else (c, some .notFound)

/-- Driver call `RemoveAll(q)`: deletes every match. -/
def mgoRemoveAll (c : Collection) (q : Query) : Collection :=
  c.filter (fun r => !q.matches r)

/-- Driver call `Find(q).Count()`: the number of matches. -/
def mgoCount (c : Collection) (q : Query) : Nat :=
  (c.filter q.matches).length

/-! ## The session store -/

/-- A Go `map[interface{}]interface{}`.  `κ` is the universe of non-nil key
values (comparable, with `==` an equivalence) and `ν` that of non-nil values. -/
abbrev Values (κ ν : Type) := Option κ → Option (Option ν)

/-- The result of `make(map[interface{}]interface{})`. -/
def emptyValues (κ ν : Type) : Values κ ν := fun _ => none

/-- The struct `SessionStore`, without its lock and connection handle. -/
structure SessionStore (κ ν : Type) where
  sid : String
  values : Values κ ν
  maxLifetime : Int

/-- The pair `session.EncodeGob`, `session.DecodeGob`; `none` is an error. -/
structure Serializer (κ ν : Type) where
  EncodeGob : Values κ ν → Option Blob
  DecodeGob : Blob → Option (Values κ ν)

section Store
variable {κ ν : Type} [DecidableEq κ]

/-- Method `Set`: `s.values[key] = value`, returns nil. -/
def SessionStore.Set (s : SessionStore κ ν) (key : Option κ) (value : Option ν) :
    SessionStore κ ν × Option Err :=
  ({ s with values := fun k => if k = key then some value else s.values k }, none)

/-- Method `Get`: the value under `key`, or nil. -/
def SessionStore.Get (s : SessionStore κ ν) (key : Option κ) : Option ν :=
  match s.values key with
  | some value => value
  | none => none

/-- Method `Delete`: `delete(s.values, key)`, returns nil. -/
def SessionStore.Delete (s : SessionStore κ ν) (key : Option κ) :
    SessionStore κ ν × Option Err :=
  ({ s with values := fun k => if k = key then none else s.values k }, none)

/-- Method `Flush`: a fresh empty map, returns nil. -/
def SessionStore.Flush (s : SessionStore κ ν) : SessionStore κ ν × Option Err :=
  ({ s with values := emptyValues κ ν }, none)

/-- Method `SessionID`: the id the store is bound to. -/
def SessionStore.SessionID (s : SessionStore κ ν) : String := s.sid

/-- Method `SessionRelease`: encode the map and `$set` it as `session_data` of the
record keyed `s.sid`; an encoding error and the result of `Update` are
dropped. -/
def SessionStore.SessionRelease (ser : Serializer κ ν) (s : SessionStore κ ν)
    (c : Collection) : Collection :=
  match ser.EncodeGob s.values with
  | none => c
  | some b =>
    (mgoUpdate c (.keyEq s.sid)
      { session_key := none, session_data := some (some b), session_expire := none }).1

end Store

/-! ## The provider -/

/-- The struct `Provider`, without its connection handle. -/
structure Provider where
  maxLifetime : Int
  savePath : String
deriving DecidableEq, Repr

section Provider
variable {κ ν : Type}

/-- The tail shared by `SessionRead` and `SessionRegenerate`: build the map
from the document the driver returned, then the store. -/
def storeOf (p : Provider) (ser : Serializer κ ν) (sid : String) (s : Option Record) :
    Except Err (SessionStore κ ν) :=
  match s with
  | none => .ok { sid := sid, values := emptyValues κ ν, maxLifetime := p.maxLifetime }
  | some doc =>
    match doc.session_data with
    | none => .error .typeAssertion
    | some b =>
      match ser.DecodeGob b with
      | none => .error .decodeGob
      | some kv => .ok { sid := sid, values := kv, maxLifetime := p.maxLifetime }

/-- Method `SessionRead` at clock reading `now`. -/
def Provider.SessionRead (p : Provider) (ser : Serializer κ ν) (c : Collection)
    (now : Int) (sid : String) : Collection × Except Err (SessionStore κ ν) :=
  let change : Change :=
    { set := Fields.empty,
      setOnInsert :=
        { session_key := some sid,
          session_data := some none,
          session_expire := some (add64 now p.maxLifetime) } }
  match mgoApply c (.keyEq sid) change with
  | (c', .error err) => (c', .error err)
  | (c', .ok s) => (c', storeOf p ser sid s)

/-- Method `SessionExist`: true unless `One` reports an error. -/
def Provider.SessionExist (c : Collection) (sid : String) : Bool :=
  match mgoOne c (.keyEq sid) with
  | .ok _ => true
  | .error _ => false

/-- Method `SessionRegenerate`; the clock is read once for `$set` (`now₁`) and once
for `$setOnInsert` (`now₂`).  The update document names `session_key` and
`session_expire` under both operators, so without a record keyed `oldsid` the
upsert is refused and the error of `Apply` is returned. -/
def Provider.SessionRegenerate (p : Provider) (ser : Serializer κ ν) (c : Collection)
    (now₁ now₂ : Int) (oldsid sid : String) :
    Collection × Except Err (SessionStore κ ν) :=
  let change : Change :=
    { set :=
        { session_key := some sid,
          session_data := none,
          session_expire := some (add64 now₁ p.maxLifetime) },
      setOnInsert :=
        { session_key := some sid,
          session_data := some none,
          session_expire := some (add64 now₂ p.maxLifetime) } }
  match mgoApply c (.keyEq oldsid) change with
  | (c', .error err) => (c', .error err)
  | (c', .ok s) => (c', storeOf p ser sid s)

/-- Method `SessionDestroy`: the error of `Remove`, if any, is returned. -/
def Provider.SessionDestroy (c : Collection) (sid : String) : Collection × Option Err :=
  match mgoRemove c (.keyEq sid) with
  | (c', some err) => (c', some err)
  | (c', none) => (c', none)

/-- Method `SessionGC` at clock reading `now`. -/
def Provider.SessionGC (c : Collection) (now : Int) : Collection :=
  mgoRemoveAll c (.expireLt now)

/-- Method `SessionAll`: the number of stored records, expired or not. -/
def Provider.SessionAll (c : Collection) : Nat :=
  mgoCount c .all

end Provider

/-! ## A small concrete serializer

Used to evaluate the operations on concrete inputs.  It keeps only the entry
under the key `"foo"`, whose value is a byte string: a map is encoded by that
entry alone, so it round-trips exactly the maps with no other entry. -/

/-- Encoder of the one-slot serializer. -/
def slotEncode (m : Values String Blob) : Option Blob :=
  match m (some "foo") with
  | some (some v) => some (1 :: v)
  | _ => some [0]

/-- Decoder of the one-slot serializer; an empty blob is an error. -/
def slotDecode : Blob → Option (Values String Blob)
  | [] => none
  | t :: v =>
    if t = 1 then some (fun k => if k = some "foo" then some (some v) else none)
    else if t = 0 ∧ v = [] then some (emptyValues String Blob)
    else none

/-- The one-slot serializer. -/
def slotSerializer : Serializer String Blob :=
  { EncodeGob := slotEncode, DecodeGob := slotDecode }

/-- The provider of the repository's test: `SessionInit(5, ...)`. -/
def testProvider : Provider :=
  { maxLifetime := 5, savePath := "mongodb://localhost:27017/test" }

/-- The store of the test after `Set("foo", "bar")`, the value as bytes. -/
def fooStore : SessionStore String Blob :=
  { sid := "foo-bar",
    values := fun k => if k = some "foo" then some (some [98, 97, 114]) else none,
    maxLifetime := 5 }

/-- The store that the first `SessionRead("foo-bar")` of the test returns. -/
def emptyFooBar : SessionStore String Blob :=
  { sid := "foo-bar", values := emptyValues String Blob, maxLifetime := 5 }

/-! ## Sequences of calls -/

/-- One call on the provider or on a store; `release s` is `s.SessionRelease`. -/
inductive Op (κ ν : Type) where
  | read (now : Int) (sid : String)
  | regenerate (now₁ now₂ : Int) (oldsid sid : String)
  | destroy (sid : String)
  | gc (now : Int)
  | release (s : SessionStore κ ν)

section Run
variable {κ ν : Type}

/-- The collection after one call. -/
def step (p : Provider) (ser : Serializer κ ν) (c : Collection) : Op κ ν → Collection
  | .read now sid => (p.SessionRead ser c now sid).1
  | .regenerate now₁ now₂ oldsid sid => (p.SessionRegenerate ser c now₁ now₂ oldsid sid).1
  | .destroy sid => (Provider.SessionDestroy c sid).1
  | .gc now => Provider.SessionGC c now
  | .release s => s.SessionRelease ser c

/-- The collection after a sequence of calls, first call first. -/
def run (p : Provider) (ser : Serializer κ ν) (c : Collection) (ops : List (Op κ ν)) :
    Collection :=
  ops.foldl (step p ser) c

/-- A call that is not a regeneration onto an id already keyed by a record:
for `regenerate` the new id equals the old one or keys no record of `c`. -/
def Op.fresh (c : Collection) : Op κ ν → Prop
  | .regenerate _ _ oldsid sid => sid = oldsid ∨ ∀ r ∈ c, r.session_key ≠ sid
  | _ => True

/-- Every call of the sequence is `fresh` in the collection it is made on. -/
def allFresh (p : Provider) (ser : Serializer κ ν) : Collection → List (Op κ ν) → Prop
  | _, [] => True
  | c, op :: ops => op.fresh c ∧ allFresh p ser (step p ser c op) ops

/-- A call that reads or releases a session; such calls leave the key and the
expiry of every stored record as they are. -/
def Op.plain : Op κ ν → Prop
  | .read _ _ => True
  | .release _ => True
  | _ => False

end Run

/-- The key and the expiry of a record. -/
def keyExpire (r : Record) : String × Int := (r.session_key, r.session_expire)

/-- Some record is keyed `sid`, and every record keyed `sid` expires at `e`. -/
def ExpiresAt (c : Collection) (sid : String) (e : Int) : Prop :=
  (sid, e) ∈ c.map keyExpire ∧ ∀ x ∈ c.map keyExpire, x.1 = sid → x.2 = e

/-- No two records have the same `session_key`. -/
def KeysUnique (c : Collection) : Prop :=
  (c.map (fun r => r.session_key)).Nodup

instance (c : Collection) : Decidable (KeysUnique c) := by
  unfold KeysUnique
  infer_instance

/-- Whether a call returned a store (no error, no panic). -/
def succeeded {α : Type} : Except Err α → Bool
  | .ok _ => true
  | .error _ => false

/-! ## Basic facts about the driver model -/

theorem wrap64_of_inRange (x : Int) (hlo : -(2 ^ 63) ≤ x) (hhi : x < 2 ^ 63) :
    wrap64 x = x := by
  unfold wrap64
  rw [Int.emod_eq_of_lt (by omega) (by omega)]
  omega

theorem add64_of_inRange (a b : Int) (hlo : -(2 ^ 63) ≤ a + b) (hhi : a + b < 2 ^ 63) :
    add64 a b = a + b :=
  wrap64_of_inRange (a + b) hlo hhi

theorem keyEq_matches (sid : String) (r : Record) :
    (Query.keyEq sid).matches r = true ↔ r.session_key = sid := by
  simp [Query.matches]

theorem find?_keyEq_none {c : Collection} {sid : String} :
    c.find? (Query.keyEq sid).matches = none ↔ ∀ r ∈ c, r.session_key ≠ sid := by
  simp [List.find?_eq_none, Query.matches]

theorem any_keyEq_false {c : Collection} {sid : String} :
    c.any (Query.keyEq sid).matches = false ↔ ∀ r ∈ c, r.session_key ≠ sid := by
  simp [Query.matches]

theorem SessionExist_eq_true {c : Collection} {sid : String} :
    Provider.SessionExist c sid = true ↔ ∃ r ∈ c, r.session_key = sid := by
  unfold Provider.SessionExist mgoOne
  cases h : c.find? (Query.keyEq sid).matches with
  | none =>
    have := find?_keyEq_none.mp h
    simp
    exact this
  | some r =>
    simp
    exact ⟨r, List.mem_of_find?_eq_some h, (keyEq_matches sid r).mp (List.find?_some h)⟩

theorem SessionExist_eq_false {c : Collection} {sid : String} :
    Provider.SessionExist c sid = false ↔ ∀ r ∈ c, r.session_key ≠ sid := by
  rw [← Bool.not_eq_true, SessionExist_eq_true]
  simp

theorem modifyFirst_id (q : Record → Bool) (f : Record → Record) (hf : ∀ r, f r = r)
    (c : Collection) : modifyFirst q f c = c := by
  induction c with
  | nil => rfl
  | cons r rs ih =>
    unfold modifyFirst
    split <;> simp [ih, hf]

theorem Fields_empty_assign (r : Record) : Fields.empty.assign r = r := by
  cases r
  rfl

theorem SessionRead_absent {κ ν : Type} (p : Provider) (ser : Serializer κ ν)
    (c : Collection) (now : Int) (sid : String) (h : ∀ r ∈ c, r.session_key ≠ sid) :
    p.SessionRead ser c now sid =
      (c ++ [{ session_key := sid, session_data := none,
               session_expire := add64 now p.maxLifetime }],
       .ok { sid := sid, values := emptyValues κ ν, maxLifetime := p.maxLifetime }) := by
  simp [Provider.SessionRead, mgoApply, find?_keyEq_none.mpr h, storeOf, Fields.assign,
    Fields.empty, Fields.overlaps, Query.seed]

theorem SessionRead_present_fst {κ ν : Type} (p : Provider) (ser : Serializer κ ν)
    (c : Collection) (now : Int) (sid : String) (r : Record)
    (h : c.find? (Query.keyEq sid).matches = some r) :
    p.SessionRead ser c now sid = (c, storeOf p ser sid (some r)) := by
  simp only [Provider.SessionRead, mgoApply, h]
  rw [modifyFirst_id _ _ Fields_empty_assign]

theorem SessionRegenerate_present {κ ν : Type} (p : Provider) (ser : Serializer κ ν)
    (c : Collection) (now₁ now₂ : Int) (oldsid sid : String) (r : Record)
    (h : c.find? (Query.keyEq oldsid).matches = some r) :
    p.SessionRegenerate ser c now₁ now₂ oldsid sid =
      (modifyFirst (Query.keyEq oldsid).matches
        (Fields.assign { session_key := some sid, session_data := none,
                         session_expire := some (add64 now₁ p.maxLifetime) }) c,
       storeOf p ser sid (some r)) := by
  simp only [Provider.SessionRegenerate, mgoApply, h]

theorem SessionRegenerate_absent {κ ν : Type} (p : Provider) (ser : Serializer κ ν)
    (c : Collection) (now₁ now₂ : Int) (oldsid sid : String)
    (h : ∀ r ∈ c, r.session_key ≠ oldsid) :
    p.SessionRegenerate ser c now₁ now₂ oldsid sid = (c, .error .writeConflict) := by
  simp [Provider.SessionRegenerate, mgoApply, find?_keyEq_none.mpr h, Fields.overlaps]

theorem find?_keyEq_some_of_mem {c : Collection} {sid : String}
    (h : ∃ r ∈ c, r.session_key = sid) :
    ∃ r, c.find? (Query.keyEq sid).matches = some r := by
  cases hf : c.find? (Query.keyEq sid).matches with
  | some r => exact ⟨r, rfl⟩
  | none =>
    obtain ⟨r, hr, hk⟩ := h
    exact absurd hk (find?_keyEq_none.mp hf r hr)

/-! ## The in-memory store -/

/-- C10. `Delete(k)` returns nil and afterwards `Get(k)` is nil; when `k` was
absent the store is unchanged; deleting twice gives the same store as deleting
once; every other key keeps its value. -/
theorem Delete_idempotent {κ ν : Type} [DecidableEq κ] (s : SessionStore κ ν)
    (k : Option κ) :
    (s.Delete k).2 = none ∧
    (s.Delete k).1.Get k = none ∧
    (s.values k = none → (s.Delete k).1 = s) ∧
    ((s.Delete k).1.Delete k).1 = (s.Delete k).1 ∧
    (∀ k', k' ≠ k → (s.Delete k).1.Get k' = s.Get k' ∧
      ((s.Delete k).1.Delete k).1.Get k' = s.Get k') := by
  refine ⟨rfl, ?_, ?_, ?_, ?_⟩
  · simp [SessionStore.Delete, SessionStore.Get]
  · intro h
    cases s with
    | mk sid values maxLifetime =>
      simp only [SessionStore.Delete, SessionStore.mk.injEq, true_and, and_true]
      funext k'
      by_cases hk : k' = k
      · subst hk
        simp [h.symm]
      · simp [hk]
  · simp only [SessionStore.Delete, SessionStore.mk.injEq, true_and, and_true]
    funext k'
    by_cases hk : k' = k <;> simp [hk]
  · intro k' hk
    simp [SessionStore.Delete, SessionStore.Get, hk]

/-- Witness of C10 on the store of the test after `Set("foo", "bar")`:
deleting the absent key `"key"` changes nothing, and `"foo"` keeps its value. -/
theorem Delete_idempotent_witness :
    (fooStore.Delete (some "key")).1 = fooStore ∧
    (fooStore.Delete (some "key")).1.Get (some "foo") = some [98, 97, 114] :=
  ⟨(Delete_idempotent fooStore (some "key")).2.2.1 (by decide),
   ((Delete_idempotent fooStore (some "key")).2.2.2.2 (some "foo") (by decide)).1.trans
      (by simp [SessionStore.Get, fooStore])⟩

/-! ## Reading -/

/-- C2. Reading an id that keys no record succeeds with an empty store bound to
the id, appends exactly one record (the id, null data, expiry
`now + maxLifetime` in `int64`, which is the plain sum when that is in range),
and the id exists afterwards. -/
theorem SessionRead_creates {κ ν : Type} (p : Provider) (ser : Serializer κ ν)
    (c : Collection) (now : Int) (sid : String) (h : ∀ r ∈ c, r.session_key ≠ sid) :
    (p.SessionRead ser c now sid).2 =
        .ok { sid := sid, values := emptyValues κ ν, maxLifetime := p.maxLifetime } ∧
    (p.SessionRead ser c now sid).1 =
        c ++ [{ session_key := sid, session_data := none,
                session_expire := add64 now p.maxLifetime }] ∧
    (-(2 ^ 63) ≤ now + p.maxLifetime ∧ now + p.maxLifetime < 2 ^ 63 →
        add64 now p.maxLifetime = now + p.maxLifetime) ∧
    Provider.SessionExist (p.SessionRead ser c now sid).1 sid = true := by
  rw [SessionRead_absent p ser c now sid h]
  refine ⟨rfl, rfl, fun hr => add64_of_inRange _ _ hr.1 hr.2, ?_⟩
  exact SessionExist_eq_true.mpr ⟨_, List.mem_append_right _ (List.mem_singleton_self _), rfl⟩

/-- Witness of C2: the first call of the test, on an empty collection at clock
reading 100. -/
theorem SessionRead_creates_witness :
    (testProvider.SessionRead slotSerializer [] 100 "foo-bar").1 =
        [{ session_key := "foo-bar", session_data := none, session_expire := 105 }] ∧
    Provider.SessionExist (testProvider.SessionRead slotSerializer [] 100 "foo-bar").1
        "foo-bar" = true :=
  ⟨(SessionRead_creates testProvider slotSerializer [] 100 "foo-bar"
      (by simp)).2.1.trans (by decide),
   (SessionRead_creates testProvider slotSerializer [] 100 "foo-bar" (by simp)).2.2.2⟩

/-- C8. Reading an id whose record is present leaves the collection as it was,
whatever the clock and the maximal lifetime. -/
theorem SessionRead_present_unchanged {κ ν : Type} (p : Provider) (ser : Serializer κ ν)
    (c : Collection) (now : Int) (sid : String) (h : ∃ r ∈ c, r.session_key = sid) :
    (p.SessionRead ser c now sid).1 = c := by
  obtain ⟨r, hr⟩ := find?_keyEq_some_of_mem h
  rw [SessionRead_present_fst p ser c now sid r hr]

/-- Witness of C8: a released record read long after its expiry. -/
theorem SessionRead_present_unchanged_witness :
    (testProvider.SessionRead slotSerializer
        [{ session_key := "foo-bar", session_data := some [1, 98], session_expire := 105 }]
        9000 "foo-bar").1 =
      [{ session_key := "foo-bar", session_data := some [1, 98], session_expire := 105 }] :=
  SessionRead_present_unchanged testProvider slotSerializer _ 9000 "foo-bar"
    ⟨_, List.mem_singleton_self _, rfl⟩

/-- C3. Reading an id whose record is present with null `session_data` does not
return a store: the unchecked assertion `s["session_data"].([]uint8)` panics.
The collection is left as it was. -/
theorem SessionRead_null_data_panics {κ ν : Type} (p : Provider) (ser : Serializer κ ν)
    (c : Collection) (now : Int) (sid : String)
    (hpresent : ∃ r ∈ c, r.session_key = sid)
    (hnull : ∀ r ∈ c, r.session_key = sid → r.session_data = none) :
    p.SessionRead ser c now sid = (c, .error .typeAssertion) := by
  obtain ⟨r, hr⟩ := find?_keyEq_some_of_mem hpresent
  rw [SessionRead_present_fst p ser c now sid r hr]
  have hd : r.session_data = none :=
    hnull r (List.mem_of_find?_eq_some hr) ((keyEq_matches sid r).mp (List.find?_some hr))
  simp [storeOf, hd]

/-- Witness of C3: `SessionRead("foo-bar")` twice in a row, nothing released in
between; the second call panics. -/
theorem SessionRead_null_data_panics_witness :
    (testProvider.SessionRead slotSerializer
        (testProvider.SessionRead slotSerializer [] 100 "foo-bar").1 101 "foo-bar").2
      = .error .typeAssertion :=
  congrArg Prod.snd
    (SessionRead_null_data_panics testProvider slotSerializer
      (testProvider.SessionRead slotSerializer [] 100 "foo-bar").1 101 "foo-bar"
      (by decide) (by decide))

/-! ## Destroying and counting -/

theorem SessionAll_eq_length (c : Collection) : Provider.SessionAll c = c.length := by
  simp [Provider.SessionAll, mgoCount, Query.matches]

theorem SessionDestroy_eq (c : Collection) (sid : String) :
    Provider.SessionDestroy c sid = mgoRemove c (.keyEq sid) := by
  unfold Provider.SessionDestroy
  rcases h : mgoRemove c (.keyEq sid) with ⟨c', _ | e⟩ <;> rfl

/-- C5, the claim as stated fails: destroying `"foo-bar"` while only `"bar-foo"`
is stored returns `mgo.ErrNotFound`. -/
theorem SessionDestroy_missing_counterexample :
    Provider.SessionExist
        [{ session_key := "bar-foo", session_data := none, session_expire := 105 }]
        "foo-bar" = false ∧
    (Provider.SessionDestroy
        [{ session_key := "bar-foo", session_data := none, session_expire := 105 }]
        "foo-bar").2 = some Err.notFound ∧
    (Provider.SessionDestroy
        [{ session_key := "bar-foo", session_data := none, session_expire := 105 }]
        "foo-bar").2 ≠ none := by
  decide

/-- C5, amended. Destroying an id that keys no record returns the driver's
not-found error and leaves the collection unchanged. -/
theorem SessionDestroy_missing (c : Collection) (sid : String)
    (h : ∀ r ∈ c, r.session_key ≠ sid) :
    Provider.SessionDestroy c sid = (c, some .notFound) := by
  rw [SessionDestroy_eq]
  simp [mgoRemove, any_keyEq_false.mpr h]

/-- Witness of C5, amended. -/
theorem SessionDestroy_missing_witness :
    Provider.SessionDestroy
        [{ session_key := "bar-foo", session_data := none, session_expire := 105 }]
        "foo-bar"
      = ([{ session_key := "bar-foo", session_data := none, session_expire := 105 }],
         some .notFound) :=
  SessionDestroy_missing _ "foo-bar" (by decide)

/-- C9. A read that creates a record raises `SessionAll` by exactly one;
destroying an id whose record is present succeeds and lowers `SessionAll` by
exactly one. -/
theorem SessionAll_moves_by_one {κ ν : Type} (p : Provider) (ser : Serializer κ ν)
    (c : Collection) (now : Int) (sid : String) :
    ((∀ r ∈ c, r.session_key ≠ sid) →
      Provider.SessionAll (p.SessionRead ser c now sid).1 = Provider.SessionAll c + 1) ∧
    ((∃ r ∈ c, r.session_key = sid) →
      (Provider.SessionDestroy c sid).2 = none ∧
      Provider.SessionAll (Provider.SessionDestroy c sid).1 + 1 = Provider.SessionAll c) := by
  constructor
  · intro h
    rw [SessionRead_absent p ser c now sid h]
    simp [SessionAll_eq_length]
  · intro h
    obtain ⟨r, hr, hk⟩ := h
    have hany : c.any (Query.keyEq sid).matches = true :=
      List.any_eq_true.mpr ⟨r, hr, (keyEq_matches sid r).mpr hk⟩
    rw [SessionDestroy_eq]
    simp only [mgoRemove, hany, if_true, SessionAll_eq_length, true_and]
    rw [List.length_eraseP_of_mem hr ((keyEq_matches sid r).mpr hk)]
    have : 0 < c.length := List.length_pos_of_mem hr
    omega

/-- Witness of C9: creating `"foo-bar"` next to `"bar-foo"` gives two records,
destroying `"bar-foo"` afterwards gives one. -/
theorem SessionAll_moves_by_one_witness :
    Provider.SessionAll (testProvider.SessionRead slotSerializer
        [{ session_key := "bar-foo", session_data := none, session_expire := 105 }]
        100 "foo-bar").1 = 1 + 1 ∧
    Provider.SessionAll (Provider.SessionDestroy
        [{ session_key := "bar-foo", session_data := none, session_expire := 105 },
         { session_key := "foo-bar", session_data := none, session_expire := 105 }]
        "bar-foo").1 + 1 = 2 :=
  ⟨(SessionAll_moves_by_one testProvider slotSerializer
      [{ session_key := "bar-foo", session_data := none, session_expire := 105 }]
      100 "foo-bar").1 (by decide),
   ((SessionAll_moves_by_one testProvider slotSerializer
      [{ session_key := "bar-foo", session_data := none, session_expire := 105 },
       { session_key := "foo-bar", session_data := none, session_expire := 105 }]
      100 "bar-foo").2 (by decide)).2⟩

/-! ## The expiry sweep -/

theorem SessionGC_mem {c : Collection} {now : Int} {r : Record} :
    r ∈ Provider.SessionGC c now ↔ r ∈ c ∧ now ≤ r.session_expire := by
  simp [Provider.SessionGC, mgoRemoveAll, Query.matches]

/-- C6, the claim as stated fails: a record created at clock reading 100 with
`maxLifetime = 5` is still present after a sweep at 105. -/
theorem SessionGC_boundary_counterexample :
    (100 : Int) + testProvider.maxLifetime ≤ 105 ∧
    Provider.SessionExist
      (Provider.SessionGC (testProvider.SessionRead slotSerializer [] 100 "foo-bar").1 105)
      "foo-bar" = true := by
  decide

theorem modifyFirst_keyExpire (q : Record → Bool) (f : Record → Record)
    (hf : ∀ r, keyExpire (f r) = keyExpire r) (c : Collection) :
    (modifyFirst q f c).map keyExpire = c.map keyExpire := by
  induction c with
  | nil => rfl
  | cons r rs ih =>
    unfold modifyFirst
    split <;> simp [ih, hf]

theorem step_expiresAt {κ ν : Type} (p : Provider) (ser : Serializer κ ν) (c : Collection)
    (sid : String) (e : Int) (op : Op κ ν) (hop : op.plain) (hc : ExpiresAt c sid e) :
    ExpiresAt (step p ser c op) sid e := by
  cases op with
  | read now sid' =>
    simp only [step]
    cases hf : c.find? (Query.keyEq sid').matches with
    | some r => rw [SessionRead_present_fst p ser c now sid' r hf]; exact hc
    | none =>
      have habs := find?_keyEq_none.mp hf
      rw [SessionRead_absent p ser c now sid' habs]
      obtain ⟨hmem, hall⟩ := hc
      have hne : sid' ≠ sid := by
        obtain ⟨r, hr, hre⟩ := List.mem_map.mp hmem
        intro heq
        apply habs r hr
        rw [heq]
        exact congrArg Prod.fst hre
      refine ⟨?_, ?_⟩
      · rw [List.map_append]
        exact List.mem_append_left _ hmem
      · intro x hx hxs
        rw [List.map_append] at hx
        rcases List.mem_append.mp hx with h1 | h1
        · exact hall x h1 hxs
        · simp only [List.map_cons, List.map_nil, List.mem_singleton] at h1
          rw [h1] at hxs
          exact absurd hxs hne
  | release s =>
    simp only [step, SessionStore.SessionRelease]
    cases ser.EncodeGob s.values with
    | none => exact hc
    | some b =>
      simp only [mgoUpdate]
      split
      · unfold ExpiresAt
        rw [modifyFirst_keyExpire _ _ (fun r => by simp [keyExpire, Fields.assign])]
        exact hc
      · exact hc
  | regenerate _ _ _ _ => exact absurd hop (by simp [Op.plain])
  | destroy _ => exact absurd hop (by simp [Op.plain])
  | gc _ => exact absurd hop (by simp [Op.plain])

theorem run_expiresAt {κ ν : Type} (p : Provider) (ser : Serializer κ ν) (sid : String)
    (e : Int) (ops : List (Op κ ν)) (hops : ∀ op ∈ ops, op.plain) :
    ∀ c : Collection, ExpiresAt c sid e → ExpiresAt (run p ser c ops) sid e := by
  induction ops with
  | nil => intro c hc; exact hc
  | cons op ops ih =>
    intro c hc
    exact ih (fun o ho => hops o (List.mem_cons_of_mem _ ho)) (step p ser c op)
      (step_expiresAt p ser c sid e op (hops op (List.mem_cons_self _ _)) hc)

theorem SessionRead_absent_expiresAt {κ ν : Type} (p : Provider) (ser : Serializer κ ν)
    (c : Collection) (t0 : Int) (sid : String) (h : ∀ r ∈ c, r.session_key ≠ sid) :
    ExpiresAt (p.SessionRead ser c t0 sid).1 sid (add64 t0 p.maxLifetime) := by
  rw [SessionRead_absent p ser c t0 sid h]
  refine ⟨?_, ?_⟩
  · rw [List.map_append]
    exact List.mem_append_right _ (by simp [keyExpire])
  · intro x hx hxs
    rw [List.map_append] at hx
    rcases List.mem_append.mp hx with h1 | h1
    · obtain ⟨r, hr, hre⟩ := List.mem_map.mp h1
      rw [← hre] at hxs
      exact absurd hxs (h r hr)
    · simp only [List.map_cons, List.map_nil, List.mem_singleton] at h1
      rw [h1]
      rfl

/-- C6, amended. After a read at `t0` has created the record of `sid`, and
after any further reads and releases (of any sessions), a sweep at `t` removes
the record when `t0 + maxLifetime < t` and keeps it when
`t ≤ t0 + maxLifetime`, the sum being the one the code computes in `int64`
(the plain sum when that is in range). -/
theorem SessionGC_sweep {κ ν : Type} (p : Provider) (ser : Serializer κ ν)
    (c : Collection) (t0 t : Int) (sid : String) (ops : List (Op κ ν))
    (h : ∀ r ∈ c, r.session_key ≠ sid) (hops : ∀ op ∈ ops, op.plain) :
    (add64 t0 p.maxLifetime < t →
      Provider.SessionExist
        (Provider.SessionGC (run p ser (p.SessionRead ser c t0 sid).1 ops) t) sid = false) ∧
    (t ≤ add64 t0 p.maxLifetime →
      Provider.SessionExist
        (Provider.SessionGC (run p ser (p.SessionRead ser c t0 sid).1 ops) t) sid = true) ∧
    (-(2 ^ 63) ≤ t0 + p.maxLifetime ∧ t0 + p.maxLifetime < 2 ^ 63 →
      add64 t0 p.maxLifetime = t0 + p.maxLifetime) := by
  obtain ⟨hmem, hall⟩ := run_expiresAt p ser sid (add64 t0 p.maxLifetime) ops hops _
    (SessionRead_absent_expiresAt p ser c t0 sid h)
  refine ⟨?_, ?_, fun hr => add64_of_inRange _ _ hr.1 hr.2⟩
  · intro hlt
    rw [SessionExist_eq_false]
    intro r hr hk
    obtain ⟨hrc, hexp⟩ := SessionGC_mem.mp hr
    have := hall (keyExpire r) (List.mem_map.mpr ⟨r, hrc, rfl⟩) hk
    simp only [keyExpire] at this
    omega
  · intro hle
    rw [SessionExist_eq_true]
    obtain ⟨r, hr, hre⟩ := List.mem_map.mp hmem
    have hk : r.session_key = sid := congrArg Prod.fst hre
    have he : r.session_expire = add64 t0 p.maxLifetime := congrArg Prod.snd hre
    exact ⟨r, SessionGC_mem.mpr ⟨hr, by rw [he]; exact hle⟩, hk⟩

/-- Witness of C6, amended: created at 100 with lifetime 5, released and read
again, then swept at 106 (gone) and at 105 (kept). -/
theorem SessionGC_sweep_witness :
    Provider.SessionExist
      (Provider.SessionGC (run testProvider slotSerializer
        (testProvider.SessionRead slotSerializer [] 100 "foo-bar").1
        [.release fooStore, .read 101 "foo-bar"]) 106)
      "foo-bar" = false ∧
    Provider.SessionExist
      (Provider.SessionGC (run testProvider slotSerializer
        (testProvider.SessionRead slotSerializer [] 100 "foo-bar").1
        [.release fooStore, .read 101 "foo-bar"]) 105)
      "foo-bar" = true :=
  ⟨(SessionGC_sweep testProvider slotSerializer [] 100 106 "foo-bar"
      [.release fooStore, .read 101 "foo-bar"] (by simp) (by simp [Op.plain])).1 (by decide),
   (SessionGC_sweep testProvider slotSerializer [] 100 105 "foo-bar"
      [.release fooStore, .read 101 "foo-bar"] (by simp) (by simp [Op.plain])).2.1
     (by decide)⟩

/-! ## Key uniqueness -/

theorem modifyFirst_keys_of_preserved (q : Record → Bool) (f : Record → Record)
    (hf : ∀ r, q r = true → (f r).session_key = r.session_key) (c : Collection) :
    (modifyFirst q f c).map (fun r => r.session_key) = c.map (fun r => r.session_key) := by
  induction c with
  | nil => rfl
  | cons r rs ih =>
    unfold modifyFirst
    by_cases hq : q r = true
    · simp [hq, hf r hq]
    · simp [hq, ih]

theorem modifyFirst_key_mem (q : Record → Bool) (f : Record → Record) (k : String)
    (hf : ∀ r, (f r).session_key = k) (c : Collection) (x : String)
    (hx : x ∈ (modifyFirst q f c).map (fun r => r.session_key)) :
    x ∈ c.map (fun r => r.session_key) ∨ x = k := by
  induction c with
  | nil => simp [modifyFirst] at hx
  | cons r rs ih =>
    unfold modifyFirst at hx
    by_cases hq : q r = true
    · simp only [hq, if_true, List.map_cons, List.mem_cons] at hx
      rcases hx with h | h
      · right
        rw [h, hf]
      · left
        exact List.mem_cons_of_mem _ h
    · simp only [hq, Bool.false_eq_true, if_false, List.map_cons, List.mem_cons] at hx
      rcases hx with h | h
      · left
        rw [h]
        exact List.mem_cons_self _ _
      · rcases ih h with h' | h'
        · left
          exact List.mem_cons_of_mem _ h'
        · right
          exact h'

theorem modifyFirst_keysUnique_of_new (q : Record → Bool) (f : Record → Record) (k : String)
    (hf : ∀ r, (f r).session_key = k) (c : Collection) (hc : KeysUnique c)
    (hk : ∀ r ∈ c, r.session_key ≠ k) : KeysUnique (modifyFirst q f c) := by
  unfold KeysUnique at *
  induction c with
  | nil => simp [modifyFirst]
  | cons r rs ih =>
    rw [List.map_cons, List.nodup_cons] at hc
    have hk' : ∀ x ∈ rs, x.session_key ≠ k := fun x hx => hk x (List.mem_cons_of_mem _ hx)
    unfold modifyFirst
    by_cases hq : q r = true
    · simp only [hq, if_true, List.map_cons, List.nodup_cons]
      refine ⟨?_, hc.2⟩
      rw [hf]
      intro hmem
      obtain ⟨x, hx, hxk⟩ := List.mem_map.mp hmem
      exact hk' x hx hxk
    · simp only [hq, Bool.false_eq_true, if_false, List.map_cons, List.nodup_cons]
      refine ⟨?_, ih hc.2 hk'⟩
      intro hmem
      rcases modifyFirst_key_mem q f k hf rs _ hmem with h | h
      · exact hc.1 h
      · exact hk r (List.mem_cons_self _ _) h

theorem keysUnique_append_new (c : Collection) (r : Record) (hc : KeysUnique c)
    (hk : ∀ x ∈ c, x.session_key ≠ r.session_key) : KeysUnique (c ++ [r]) := by
  unfold KeysUnique at *
  rw [List.map_append, List.nodup_append]
  refine ⟨hc, by simp, ?_⟩
  intro a ha hb
  simp only [List.map_cons, List.map_nil, List.mem_singleton] at hb
  obtain ⟨x, hx, hxa⟩ := List.mem_map.mp ha
  exact hk x hx (hxa.trans hb)

theorem keysUnique_of_sublist {c c' : Collection} (h : c'.Sublist c) (hc : KeysUnique c) :
    KeysUnique c' :=
  List.Nodup.sublist (h.map _) hc

theorem step_keysUnique {κ ν : Type} (p : Provider) (ser : Serializer κ ν) (c : Collection)
    (op : Op κ ν) (hc : KeysUnique c) (hop : op.fresh c) : KeysUnique (step p ser c op) := by
  cases op with
  | read now sid =>
    simp only [step]
    cases hf : c.find? (Query.keyEq sid).matches with
    | some r => rw [SessionRead_present_fst p ser c now sid r hf]; exact hc
    | none =>
      rw [SessionRead_absent p ser c now sid (find?_keyEq_none.mp hf)]
      exact keysUnique_append_new c _ hc (find?_keyEq_none.mp hf)
  | regenerate now₁ now₂ oldsid sid =>
    simp only [step]
    cases hf : c.find? (Query.keyEq oldsid).matches with
    | some r =>
      rw [SessionRegenerate_present p ser c now₁ now₂ oldsid sid r hf]
      simp only
      rcases hop with heq | habs
      · unfold KeysUnique
        rw [modifyFirst_keys_of_preserved]
        · exact hc
        · intro x hx
          simp [Fields.assign, heq, (keyEq_matches oldsid x).mp hx]
      · exact modifyFirst_keysUnique_of_new _ _ sid (fun x => by simp [Fields.assign]) c hc habs
    | none =>
      rw [SessionRegenerate_absent p ser c now₁ now₂ oldsid sid (find?_keyEq_none.mp hf)]
      exact hc
  | destroy sid =>
    simp only [step, SessionDestroy_eq, mgoRemove]
    split
    · exact keysUnique_of_sublist (List.eraseP_sublist c) hc
    · exact hc
  | gc now =>
    exact keysUnique_of_sublist (List.filter_sublist c) hc
  | release s =>
    simp only [step, SessionStore.SessionRelease]
    cases ser.EncodeGob s.values with
    | none => exact hc
    | some b =>
      simp only [mgoUpdate]
      split
      · unfold KeysUnique
        rw [modifyFirst_keys_of_preserved]
        · exact hc
        · intro x _
          simp [Fields.assign]
      · exact hc

theorem run_keysUnique {κ ν : Type} (p : Provider) (ser : Serializer κ ν)
    (ops : List (Op κ ν)) :
    ∀ c : Collection, KeysUnique c → allFresh p ser c ops → KeysUnique (run p ser c ops) := by
  induction ops with
  | nil => intro c hc _; exact hc
  | cons op ops ih =>
    intro c hc hops
    exact ih (step p ser c op) (step_keysUnique p ser c op hc hops.1) hops.2

/-- C7, the claim as stated fails: after `SessionRead("foo-bar")`, a release
that stores data, `SessionRead("bar-foo")` and
`SessionRegenerate("foo-bar", "bar-foo")`, each of which returns normally, two
records are keyed `"bar-foo"`. -/
theorem KeysUnique_counterexample :
    succeeded (testProvider.SessionRegenerate slotSerializer
      (run testProvider slotSerializer []
        [.read 100 "foo-bar", .release fooStore, .read 101 "bar-foo"])
      102 102 "foo-bar" "bar-foo").2 = true ∧
    ¬ KeysUnique (run testProvider slotSerializer []
      [.read 100 "foo-bar", .release fooStore, .read 101 "bar-foo",
       .regenerate 102 102 "foo-bar" "bar-foo"]) := by
  decide

/-- C7, amended. Starting from the empty collection, every sequence of
`SessionRead`, `SessionRegenerate`, `SessionDestroy`, `SessionGC` and
`SessionRelease` calls in which no regeneration targets an id that already keys
a record (other than the old id itself) leaves the keys pairwise distinct. -/
theorem KeysUnique_reachable {κ ν : Type} (p : Provider) (ser : Serializer κ ν)
    (ops : List (Op κ ν)) (h : allFresh p ser [] ops) :
    KeysUnique (run p ser [] ops) :=
  run_keysUnique p ser ops [] (by simp [KeysUnique]) h

/-- Witness of C7, amended: the calls of the repository's test. -/
theorem KeysUnique_reachable_witness :
    KeysUnique (run testProvider slotSerializer []
      [.read 100 "foo-bar", .release fooStore, .read 101 "foo-bar",
       .regenerate 102 102 "foo-bar" "bar-foo", .gc 103, .destroy "bar-foo"]) :=
  KeysUnique_reachable testProvider slotSerializer _ (by
    simp only [allFresh, Op.fresh, and_true, true_and]
    decide)

/-! ## Release and read back -/

theorem storeOf_sid {κ ν : Type} (p : Provider) (ser : Serializer κ ν) (sid : String)
    (s : Option Record) (st : SessionStore κ ν) (h : storeOf p ser sid s = .ok st) :
    st.sid = sid := by
  unfold storeOf at h
  split at h
  · cases h; rfl
  · split at h
    · cases h
    · split at h
      · cases h
      · cases h; rfl

theorem SessionRead_sid {κ ν : Type} (p : Provider) (ser : Serializer κ ν) (c : Collection)
    (now : Int) (sid : String) (st : SessionStore κ ν)
    (h : (p.SessionRead ser c now sid).2 = .ok st) : st.sid = sid := by
  cases hf : c.find? (Query.keyEq sid).matches with
  | some r =>
    rw [SessionRead_present_fst p ser c now sid r hf] at h
    exact storeOf_sid p ser sid (some r) st h
  | none =>
    rw [SessionRead_absent p ser c now sid (find?_keyEq_none.mp hf)] at h
    cases h
    rfl

theorem SessionRead_exists_after {κ ν : Type} (p : Provider) (ser : Serializer κ ν)
    (c : Collection) (now : Int) (sid : String) :
    ∃ r ∈ (p.SessionRead ser c now sid).1, r.session_key = sid := by
  cases hf : c.find? (Query.keyEq sid).matches with
  | some r =>
    rw [SessionRead_present_fst p ser c now sid r hf]
    exact ⟨r, List.mem_of_find?_eq_some hf, (keyEq_matches sid r).mp (List.find?_some hf)⟩
  | none =>
    rw [SessionRead_absent p ser c now sid (find?_keyEq_none.mp hf)]
    exact ⟨_, List.mem_append_right _ (List.mem_singleton_self _), rfl⟩

theorem find?_modifyFirst (q : Record → Bool) (f : Record → Record)
    (hf : ∀ r, q r = true → q (f r) = true) (c : Collection) :
    (modifyFirst q f c).find? q = (c.find? q).map f := by
  induction c with
  | nil => rfl
  | cons r rs ih =>
    unfold modifyFirst
    by_cases hq : q r = true
    · simp [hq, hf r hq]
    · simp [hq, ih]

/-- C1. A store obtained from `SessionRead(sid)`, after `Set(k, v)` and
`SessionRelease`, is read back by a fresh `SessionRead(sid)` as a store bound to
`sid` that holds the released map, so that `Get(k)` on it is `v`; this provided
the serializer encodes the released map to a blob that it decodes back to that
map. -/
theorem release_read_round_trip {κ ν : Type} [DecidableEq κ] (p : Provider)
    (ser : Serializer κ ν) (c : Collection) (now now' : Int) (sid : String)
    (k : Option κ) (v : Option ν) (st : SessionStore κ ν) (b : Blob)
    (hread : (p.SessionRead ser c now sid).2 = .ok st)
    (henc : ser.EncodeGob (st.Set k v).1.values = some b)
    (hdec : ser.DecodeGob b = some (st.Set k v).1.values) :
    (p.SessionRead ser
        ((st.Set k v).1.SessionRelease ser (p.SessionRead ser c now sid).1) now' sid).2
      = .ok { sid := sid, values := (st.Set k v).1.values, maxLifetime := p.maxLifetime } ∧
    ({ sid := sid, values := (st.Set k v).1.values, maxLifetime := p.maxLifetime } :
      SessionStore κ ν).Get k = v := by
  have hsid : (st.Set k v).1.sid = sid := SessionRead_sid p ser c now sid st hread
  obtain ⟨r, hr⟩ := find?_keyEq_some_of_mem (SessionRead_exists_after p ser c now sid)
  have hany : (p.SessionRead ser c now sid).1.any (Query.keyEq sid).matches = true :=
    List.any_eq_true.mpr ⟨r, List.mem_of_find?_eq_some hr, List.find?_some hr⟩
  have hrel : (st.Set k v).1.SessionRelease ser (p.SessionRead ser c now sid).1 =
      modifyFirst (Query.keyEq sid).matches
        (Fields.assign { session_key := none, session_data := some (some b),
                         session_expire := none })
        (p.SessionRead ser c now sid).1 := by
    simp [SessionStore.SessionRelease, henc, hsid, mgoUpdate, hany]
  have hfind : ((st.Set k v).1.SessionRelease ser (p.SessionRead ser c now sid).1).find?
      (Query.keyEq sid).matches =
      some { session_key := r.session_key, session_data := some b,
             session_expire := r.session_expire } := by
    rw [hrel, find?_modifyFirst _ _ (fun x hx => by simpa [Fields.assign, Query.matches] using hx),
      hr]
    simp [Fields.assign]
  rw [SessionRead_present_fst p ser _ now' sid _ hfind]
  refine ⟨?_, ?_⟩
  · simp [storeOf, hdec]
  · simp [SessionStore.Get, SessionStore.Set]

/-- Witness of C1: the steps of the repository's test, the value `"bar"` as
bytes: read `"foo-bar"` on the empty collection, `Set("foo", "bar")`, release,
read again, `Get("foo")`. -/
theorem release_read_round_trip_witness :
    (testProvider.SessionRead slotSerializer
        ((emptyFooBar.Set (some "foo") (some [98, 97, 114])).1.SessionRelease
          slotSerializer (testProvider.SessionRead slotSerializer [] 100 "foo-bar").1)
        101 "foo-bar").2
      = .ok { sid := "foo-bar",
              values := (emptyFooBar.Set (some "foo") (some [98, 97, 114])).1.values,
              maxLifetime := 5 } ∧
    ({ sid := "foo-bar",
       values := (emptyFooBar.Set (some "foo") (some [98, 97, 114])).1.values,
       maxLifetime := 5 } : SessionStore String Blob).Get (some "foo")
      = some [98, 97, 114] :=
  release_read_round_trip testProvider slotSerializer [] 100 101 "foo-bar" (some "foo")
    (some [98, 97, 114]) emptyFooBar [1, 98, 97, 114] rfl rfl (by
      simp only [slotSerializer, slotDecode, SessionStore.Set, emptyFooBar, emptyValues]
      simp)

/-! ## Regeneration -/

end MongoSession
